import Mathlib

set_option linter.unusedVariables false

/-!
Shallow embedding of the TiKV batch system
(`components/batch-system/src/batch.rs`).

Each FSM carries a stopped flag, a runtime priority and a flag recording
whether its mailbox back-reference is currently attached.  A mailbox is
modelled by the observable state the batch code reads: the number of
pending messages and the optional FSM stored in its slot.  Concurrent
activity of other threads (producers pushing messages, another scheduler
stealing the FSM out of the mailbox) is injected as explicit oracle
parameters (`pushed`, `stolen`) at the unique race window of `release`.
Real time is injected as `Nat` timestamps; `saturating_elapsed` becomes
truncated subtraction on `Nat`.  A Rust panic (a failed `unwrap` or
`assert!`) is modelled as `none` in an `Option`-valued result.
-/

inductive Priority
  | Normal
  | Low
deriving DecidableEq, Repr

/-- An FSM as the batch system observes it: `stopped` is the flag read by
`is_stopped`, `priority` the value read by `get_priority`, and
`mailboxAttached` records whether the mailbox back-reference is present
(`take_mailbox` removes it, `set_mailbox` restores it). -/
structure Fsm where
  fid : Nat
  stopped : Bool
  priority : Priority
  mailboxAttached : Bool
deriving DecidableEq, Repr

/-- Observable state of a `BasicMailbox`: number of pending messages
(`len()`), and the FSM slot read by `take_fsm` and written by
`release`. -/
structure MailboxState where
  msgs : Nat
  slot : Option Fsm
deriving DecidableEq, Repr

/-- `MetricsCollector`: the timestamp at which the FSM entered the batch
and the number of rounds it has been polled. -/
structure MetricsCollector where
  timer : Nat
  round : Nat
deriving DecidableEq, Repr

inductive ReschedulePolicy
  | Release (l : Nat)
  | Remove
  | Schedule
deriving DecidableEq, Repr

/-- `NormalFsm<N>`: an FSM owned by a batch slot, plus its metrics and its
end-of-round reschedule decision. -/
structure NormalFsm where
  fsm : Fsm
  metrics : MetricsCollector
  policy : Option ReschedulePolicy
deriving DecidableEq, Repr

/-- `NormalFsm::new`, with the current time passed explicitly. -/
def NormalFsm.new (n : Fsm) (now : Nat) : NormalFsm :=
  { fsm := n, metrics := { timer := now, round := 0 }, policy := none }

/-- `FsmTypes<N, C>`: the three shapes of channel items. -/
inductive FsmTypes
  | Normal (f : Fsm) (ts : Nat)
  | Control (f : Fsm) (ts : Nat)
  | Empty
deriving DecidableEq, Repr

/-- `Batch<N, C>`: the per-worker working set. -/
structure Batch where
  normals : List (Option NormalFsm)
  control : Option Fsm
deriving DecidableEq, Repr

/-- `Batch::with_capacity` (capacity is only an allocation hint). -/
def Batch.with_capacity (_cap : Nat) : Batch :=
  { normals := [], control := none }

/-- `Batch::push`.  Returns `none` on the `assert!(self.control.is_none())`
panic, otherwise `some (batch, flag)` where `flag` is the Rust return
value. -/
def Batch.push (b : Batch) (item : FsmTypes) (now : Nat) : Option (Batch × Bool) :=
  match item with
  | FsmTypes.Normal n _ts =>
    some ({ b with normals := b.normals ++ [some (NormalFsm.new n now)] }, true)
  | FsmTypes.Control c _ts =>
    if b.control.isNone then some ({ b with control := some c }, true) else none
  | FsmTypes.Empty => some (b, false)

/-- `Batch::is_empty`. -/
def Batch.is_empty (b : Batch) : Bool :=
  b.normals.isEmpty && b.control.isNone

/-- `Batch::clear`. -/
def Batch.clear (_b : Batch) : Batch :=
  { normals := [], control := none }

/-- `Batch::release`.  `mb` is the state of the mailbox owned by `fsm`;
`pushed` and `stolen` are the oracle inputs describing concurrent
producers (messages pushed during the race window) and a concurrent
scheduler stealing the FSM out of the slot.  Outer `none` models the
`take_mailbox().unwrap()` panic.  Result: the Rust return value together
with the final mailbox state. -/
def Batch.release (fsm : NormalFsm) (expected_len : Nat) (mb : MailboxState)
    (pushed : Nat) (stolen : Bool) : Option (Option NormalFsm × MailboxState) :=
  if fsm.fsm.mailboxAttached = false then none
  else
    let inner : Fsm := { fsm.fsm with mailboxAttached := false }
    let mb2 : MailboxState :=
      { msgs := mb.msgs + pushed, slot := if stolen then none else some inner }
    if mb2.msgs = expected_len then some (none, mb2)
    else
      match mb2.slot with
      | none => some (none, mb2)
      | some s =>
        some (some { fsm with fsm := { s with mailboxAttached := true } },
          { mb2 with slot := none })

/-- `Batch::remove`.  The FSM is stopped and closed, so no oracle inputs:
the mailbox length can no longer change.  Outer `none` models the
`take_mailbox().unwrap()` panic. -/
def Batch.remove (fsm : NormalFsm) (mb : MailboxState) :
    Option (Option NormalFsm × MailboxState) :=
  if fsm.fsm.mailboxAttached = false then none
  else
    let inner : Fsm := { fsm.fsm with mailboxAttached := false }
    if mb.msgs = 0 then some (none, { mb with slot := some inner })
    else some (some { fsm with fsm := { inner with mailboxAttached := true } }, mb)

/-- Result of `Batch::schedule`: the new batch, the final state of the
touched FSM's mailbox, and the FSM sent through
`router.normal_scheduler`, if any. -/
structure SchedOut where
  batch : Batch
  mb : MailboxState
  sent : Option Fsm
deriving DecidableEq, Repr

/-- `Batch::schedule`.  `mb`, `pushed`, `stolen` describe the mailbox of
the FSM at `index` as for `Batch.release`.  Outer `none` models a panic
(index out of bounds, or a panic inside `release` / `remove`). -/
def Batch.schedule (b : Batch) (index : Nat) (mb : MailboxState)
    (pushed : Nat) (stolen : Bool) : Option SchedOut :=
  match b.normals[index]? with
  | none => none
  | some none => some ⟨b, mb, none⟩
  | some (some f) =>
    let b1 : Batch := { b with normals := b.normals.set index none }
    let step : Option (Option NormalFsm × MailboxState × Option Fsm) :=
      match f.policy with
      | some (ReschedulePolicy.Release l) =>
        (Batch.release f l mb pushed stolen).map (fun r => (r.1, r.2, none))
      | some ReschedulePolicy.Remove =>
        (Batch.remove f mb).map (fun r => (r.1, r.2, none))
      | some ReschedulePolicy.Schedule => some (none, mb, some f.fsm)
      | none => some (some f, mb, none)
    match step with
    | none => none
    | some (some g, mb1, sent) =>
      some ⟨{ b1 with normals := b1.normals.set index (some { g with policy := none }) },
        mb1, sent⟩
    | some (none, mb1, sent) => some ⟨b1, mb1, sent⟩

/-- `Vec::swap_remove`: replace the element at `i` by the last element and
pop the tail. -/
def listSwapRemove {α : Type} (l : List α) (i : Nat) : List α :=
  match l.getLast? with
  | none => l
  | some last => (l.set i last).dropLast

/-- `Batch::swap_reclaim`.  `none` models the out-of-bounds panic of
`self.normals[index]`. -/
def Batch.swap_reclaim (b : Batch) (index : Nat) : Option Batch :=
  match b.normals[index]? with
  | none => none
  | some none => some { b with normals := listSwapRemove b.normals index }
  | some (some _) => some b

/-- `Batch::release_control`.  Same handover algorithm as `release`, on
the singleton control FSM.  Returns the new batch, the control mailbox
state and the Rust boolean. -/
def Batch.release_control (b : Batch) (controlBox : MailboxState) (checked_len : Nat)
    (pushed : Nat) (stolen : Bool) : Option (Batch × MailboxState × Bool) :=
  match b.control with
  | none => none
  | some s =>
    let mb2 : MailboxState :=
      { msgs := controlBox.msgs + pushed, slot := if stolen then none else some s }
    if mb2.msgs = checked_len then some ({ b with control := none }, mb2, true)
    else
      match mb2.slot with
      | none => some ({ b with control := none }, mb2, true)
      | some s2 => some ({ b with control := some s2 }, { mb2 with slot := none }, false)

/-- `Batch::remove_control`.  `none` models the `unwrap` panic when the
control mailbox is empty but the batch holds no control FSM. -/
def Batch.remove_control (b : Batch) (controlBox : MailboxState) :
    Option (Batch × MailboxState) :=
  if controlBox.msgs = 0 then
    match b.control with
    | none => none
    | some s => some ({ b with control := none }, { controlBox with slot := some s })
  else some (b, controlBox)

/-- `HandleResult`: return value of `handle_normal`. -/
inductive HandleResult
  | KeepProcessing
  | StopAt (progress : Nat) (skip_end : Bool)
deriving DecidableEq, Repr

/-- A `PollHandler` as the poller uses it in the classification loop:
`handle_normal` may mutate the FSM (stop it, change its priority) and
returns a `HandleResult`; `priority` is `get_priority()`. -/
structure Handler where
  run : Fsm → Fsm × HandleResult
  priority : Priority

/-- Result of classifying one already-held normal FSM in the main loop of
`Poller::poll` (lines 433-462): the updated `NormalFsm`, the new
`hot_fsm_count`, whether the index was pushed onto `reschedule_fsms`, and
whether it was pushed onto `to_skip_end`. -/
structure ClassifyOut where
  p : NormalFsm
  hotCount : Nat
  recorded : Bool
  skipEnd : Bool
deriving DecidableEq, Repr

/-- One iteration of the main classification loop of `Poller::poll` over
an already-held FSM: run `handle_normal`, then the
stopped / priority-mismatch / hot / stop-at cascade. -/
def classifyOne (H : Handler) (dur now : Nat) (hc : Nat) (p : NormalFsm) : ClassifyOut :=
  let f1 := (H.run p.fsm).1
  let res := (H.run p.fsm).2
  let p1 : NormalFsm := { p with fsm := f1 }
  if f1.stopped then ⟨{ p1 with policy := some ReschedulePolicy.Remove }, hc, true, false⟩
  else if f1.priority ≠ H.priority then
    ⟨{ p1 with policy := some ReschedulePolicy.Schedule }, hc, true, false⟩
  else
    let hot : Bool := decide (dur ≤ now - p.metrics.timer)
    let hc1 : Nat := if hot then hc + 1 else hc
    if hot ∧ hc1 % 2 = 0 then
      ⟨{ p1 with policy := some ReschedulePolicy.Schedule }, hc1, true, false⟩
    else
      match res with
      | HandleResult.StopAt progress sk =>
        ⟨{ p1 with policy := some (ReschedulePolicy.Release progress) }, hc1, true, sk⟩
      | HandleResult.KeepProcessing => ⟨p1, hc1, false, false⟩

/-- The whole main classification loop (`for (i, p) in
batch.normals.iter_mut().enumerate()`), starting at index `i0` with hot
counter `hc`.  `none` models the `p.as_mut().unwrap()` panic on an empty
slot.  Returns the updated slots, the final `hot_fsm_count`, and the
recorded `reschedule_fsms` and `to_skip_end` index lists. -/
def classifyLoop (H : Handler) (dur now : Nat) :
    List (Option NormalFsm) → Nat → Nat →
    Option (List (Option NormalFsm) × Nat × List Nat × List Nat)
  | [], _, hc => some ([], hc, [], [])
  | none :: _, _, _ => none
  | some p :: rest, i, hc =>
    let c := classifyOne H dur now hc p
    match classifyLoop H dur now rest (i + 1) c.hotCount with
    | none => none
    | some (os, hcFin, recs, skips) =>
      some (some c.p :: os, hcFin,
        (if c.recorded then i :: recs else recs),
        (if c.skipEnd then i :: skips else skips))

/-- Outcome of `Poller::fetch_fsm`: either a Rust panic, or the returned
boolean together with the updated batch and whether `handler.pause()` was
called. -/
inductive FetchOut
  | panic
  | ret (r : Bool) (b : Batch) (paused : Bool)
deriving DecidableEq, Repr

/-- `Poller::fetch_fsm`.  The channel is abstracted by two oracle inputs:
`tryRes` is the result of the non-blocking `try_recv` (`none` = empty or
disconnected) and `blockRes` the result of the blocking `recv` (`none` =
channel closed). -/
def Poller.fetch_fsm (batch : Batch) (tryRes blockRes : Option FsmTypes)
    (now : Nat) : FetchOut :=
  if batch.control.isSome then FetchOut.ret true batch false
  else
    match tryRes with
    | some fsm =>
      match batch.push fsm now with
      | none => FetchOut.panic
      | some (b1, r) => FetchOut.ret r b1 false
    | none =>
      if Batch.is_empty batch then
        match blockRes with
        | some fsm =>
          match batch.push fsm now with
          | none => FetchOut.panic
          | some (b1, r) => FetchOut.ret r b1 true
        | none => FetchOut.ret (!(Batch.is_empty batch)) batch true
      else FetchOut.ret (!(Batch.is_empty batch)) batch false

/-- The state of `BatchSystem` that `shutdown` reads and writes: the
optional name prefix set by `spawn`, and the worker join handles. -/
structure BatchSystemM where
  namePfx : Option Nat
  workers : List Nat
deriving DecidableEq, Repr

/-- Externally visible effects of `BatchSystem::shutdown`. -/
inductive SysEffect
  | broadcastShutdown
  | joinWorker (w : Nat)
deriving DecidableEq, Repr

/-- `BatchSystem::shutdown`: early return when the prefix is unset,
otherwise take the prefix, broadcast shutdown and join (drain) every
worker. -/
def BatchSystem.shutdown (s : BatchSystemM) : BatchSystemM × List SysEffect :=
  match s.namePfx with
  | none => (s, [])
  | some _ =>
    ({ namePfx := none, workers := [] },
      SysEffect.broadcastShutdown :: s.workers.map SysEffect.joinWorker)

/-- Per-index oracle for a reschedule pass: the mailbox state of the FSM
at that index and the concurrency inputs of its `release`. -/
def EnvAt : Type := Nat → MailboxState × Nat × Bool

/-- The final reschedule pass of `Poller::poll` (lines 501-504): for each
recorded index, `batch.schedule` then `batch.swap_reclaim`.  `none`
models a panic at some step. -/
def processResched (envAt : EnvAt) : Batch → List Nat → Option Batch
  | b, [] => some b
  | b, i :: rest =>
    match Batch.schedule b i (envAt i).1 (envAt i).2.1 (envAt i).2.2 with
    | none => none
    | some out =>
      match Batch.swap_reclaim out.batch i with
      | none => none
      | some b1 => processResched envAt b1 rest

/-- Safety of a reschedule pass relative to the batch `orig` it started
from: at every step the index is in bounds, the slot still holds what
`orig` held there, and neither `schedule` nor `swap_reclaim` panics. -/
def reschedSafe (orig : Batch) (envAt : EnvAt) : Batch → List Nat → Prop
  | _, [] => True
  | b, i :: rest =>
    i < b.normals.length ∧ b.normals[i]? = orig.normals[i]? ∧
    ∃ out b1, Batch.schedule b i (envAt i).1 (envAt i).2.1 (envAt i).2.2 = some out ∧
      Batch.swap_reclaim out.batch i = some b1 ∧ reschedSafe orig envAt b1 rest

/-- Sample FSM used by witness theorems. -/
def fsmA : Fsm :=
  { fid := 0, stopped := false, priority := Priority.Normal, mailboxAttached := true }

/-- Sample batch-held FSM used by witness theorems. -/
def nfA : NormalFsm :=
  { fsm := fsmA, metrics := { timer := 0, round := 0 }, policy := none }

/-- Handler that keeps every FSM processing, used by witnesses. -/
def hKeep : Handler :=
  { run := fun f => (f, HandleResult.KeepProcessing), priority := Priority.Normal }

/-- Sample batch-held FSM with a `Release 0` policy, for witnesses. -/
def nfR : NormalFsm :=
  { fsm := fsmA, metrics := { timer := 0, round := 0 },
    policy := some (ReschedulePolicy.Release 0) }

/-- The hotness test of the main loop:
`p.metrics.timer.saturating_elapsed() >= reschedule_duration`. -/
def isHot (dur now : Nat) (p : NormalFsm) : Bool :=
  decide (dur ≤ now - p.metrics.timer)

/-- Number of hot FSMs in a list. -/
def hotCnt (dur now : Nat) (ns : List NormalFsm) : Nat :=
  ns.countP (isHot dur now)

/-- Whether a slot holds an FSM whose policy is `Schedule`. -/
def slotSched (o : Option NormalFsm) : Bool :=
  match o with
  | some q => decide (q.policy = some ReschedulePolicy.Schedule)
  | none => false

/-- After `handle_normal` the FSM is not stopped, its priority matches the
handler's, and its reschedule decision was unset at round start. -/
def cleanFor (H : Handler) (p : NormalFsm) : Prop :=
  (H.run p.fsm).1.stopped = false ∧ (H.run p.fsm).1.priority = H.priority ∧
    p.policy = none

/-- Whether a slot's FSM (if any) has its mailbox back-reference
attached. -/
def slotAttached : Option NormalFsm → Bool
  | some f => f.fsm.mailboxAttached
  | none => true


lemma fsm_reattach_eq (f : Fsm) (h : f.mailboxAttached = true) :
    ({ { f with mailboxAttached := false } with mailboxAttached := true } : Fsm) = f := by
  cases f
  simp_all

lemma normalFsm_policy_none_eq (p : NormalFsm) (h : p.policy = none) :
    ({ p with policy := none } : NormalFsm) = p := by
  cases p
  simp_all

lemma normalFsm_fsm_eq (p : NormalFsm) : ({ p with fsm := p.fsm } : NormalFsm) = p := by
  cases p
  rfl

lemma list_set_self {α : Type} : ∀ (l : List α) (i : Nat) (a : α),
    l[i]? = some a → l.set i a = l
  | [], i, a, h => by simp at h
  | x :: xs, 0, a, h => by
    simp at h
    simp [h]
  | x :: xs, i + 1, a, h => by
    simp at h
    simp [List.set, list_set_self xs i a h]

lemma release_eq_of_len (fsm : NormalFsm) (expected_len : Nat) (mb : MailboxState)
    (pushed : Nat) (stolen : Bool) (hatt : fsm.fsm.mailboxAttached = true)
    (hlen : mb.msgs + pushed = expected_len) :
    Batch.release fsm expected_len mb pushed stolen =
      some (none,
        { msgs := mb.msgs + pushed,
          slot := if stolen then none
            else some { fsm.fsm with mailboxAttached := false } }) := by
  obtain ⟨⟨fid, st, pr, att⟩, mets, pol⟩ := fsm
  simp at hatt
  subst hatt
  simp [Batch.release, hlen]

lemma release_eq_of_stolen (fsm : NormalFsm) (expected_len : Nat) (mb : MailboxState)
    (pushed : Nat) (hatt : fsm.fsm.mailboxAttached = true)
    (hlen : mb.msgs + pushed ≠ expected_len) :
    Batch.release fsm expected_len mb pushed true =
      some (none, { msgs := mb.msgs + pushed, slot := none }) := by
  obtain ⟨⟨fid, st, pr, att⟩, mets, pol⟩ := fsm
  simp at hatt
  subst hatt
  simp [Batch.release, hlen]

lemma release_eq_of_retake (fsm : NormalFsm) (expected_len : Nat) (mb : MailboxState)
    (pushed : Nat) (hatt : fsm.fsm.mailboxAttached = true)
    (hlen : mb.msgs + pushed ≠ expected_len) :
    Batch.release fsm expected_len mb pushed false =
      some (some fsm, { msgs := mb.msgs + pushed, slot := none }) := by
  obtain ⟨⟨fid, st, pr, att⟩, mets, pol⟩ := fsm
  simp at hatt
  subst hatt
  simp [Batch.release, hlen]

/-- C1: `Batch::release` takes the mailbox out of the FSM and stores the
stripped FSM back into the mailbox slot; it returns `None` exactly when
the mailbox length observed after the release equals `expected_len` or
`take_fsm()` yields nothing (a concurrent scheduler took it); in the
remaining case it reattaches the mailbox to the taken FSM and returns
`Some` of the unchanged `NormalFsm`, emptying the slot. -/
theorem c1_release_handover (fsm : NormalFsm) (expected_len : Nat) (mb : MailboxState)
    (pushed : Nat) (stolen : Bool) (hatt : fsm.fsm.mailboxAttached = true) :
    ∃ res mb2, Batch.release fsm expected_len mb pushed stolen = some (res, mb2) ∧
      mb2.msgs = mb.msgs + pushed ∧
      (res = none ↔ mb.msgs + pushed = expected_len ∨ stolen = true) ∧
      (mb.msgs + pushed = expected_len →
        mb2.slot = if stolen then none
          else some { fsm.fsm with mailboxAttached := false }) ∧
      (mb.msgs + pushed ≠ expected_len → stolen = true → res = none ∧ mb2.slot = none) ∧
      (mb.msgs + pushed ≠ expected_len → stolen = false →
        res = some fsm ∧ mb2.slot = none) := by
  by_cases hlen : mb.msgs + pushed = expected_len
  · exact ⟨none, _, release_eq_of_len fsm expected_len mb pushed stolen hatt hlen,
      rfl, by simp [hlen], fun _ => rfl, fun h _ => absurd hlen h, fun h _ => absurd hlen h⟩
  · cases stolen
    · refine ⟨some fsm, _, release_eq_of_retake fsm expected_len mb pushed hatt hlen,
        rfl, ?_, ?_, ?_, ?_⟩
      · simp [hlen]
      · exact fun h => absurd h hlen
      · intro _ h
        simp at h
      · exact fun _ _ => ⟨rfl, rfl⟩
    · refine ⟨none, _, release_eq_of_stolen fsm expected_len mb pushed hatt hlen,
        rfl, ?_, ?_, ?_, ?_⟩
      · simp [hlen]
      · exact fun h => absurd h hlen
      · exact fun _ _ => ⟨rfl, rfl⟩
      · intro _ h
        simp at h


theorem c1_release_handover_witness :
    nfA.fsm.mailboxAttached = true ∧
    ∃ res mb2, Batch.release nfA 2 { msgs := 1, slot := none } 0 false = some (res, mb2) ∧
      mb2.msgs = 1 + 0 ∧
      (res = none ↔ 1 + 0 = 2 ∨ false = true) ∧
      (1 + 0 = 2 →
        mb2.slot = if false then none
          else some { nfA.fsm with mailboxAttached := false }) ∧
      (1 + 0 ≠ 2 → false = true → res = none ∧ mb2.slot = none) ∧
      (1 + 0 ≠ 2 → false = false → res = some nfA ∧ mb2.slot = none) :=
  ⟨rfl, c1_release_handover nfA 2 { msgs := 1, slot := none } 0 false rfl⟩

/-- C6: `Batch::remove` releases the stopped FSM into its mailbox and
returns `None` exactly when the mailbox is empty; on a non-empty mailbox
it reattaches the mailbox and returns `Some` of the unchanged FSM.
`Batch::remove_control` applies the identical contract to the control
FSM: it takes the control FSM out of the batch and releases it into the
control mailbox only when that mailbox is empty, and otherwise leaves
batch and mailbox untouched. -/
theorem c6_remove_contract (fsm : NormalFsm) (mb : MailboxState) (b : Batch)
    (cb : MailboxState) (c : Fsm) (hatt : fsm.fsm.mailboxAttached = true) :
    (mb.msgs = 0 → Batch.remove fsm mb =
      some (none, { mb with slot := some { fsm.fsm with mailboxAttached := false } })) ∧
    (mb.msgs ≠ 0 → Batch.remove fsm mb = some (some fsm, mb)) ∧
    (cb.msgs = 0 → b.control = some c →
      Batch.remove_control b cb =
        some ({ b with control := none }, { cb with slot := some c })) ∧
    (cb.msgs ≠ 0 → Batch.remove_control b cb = some (b, cb)) := by
  obtain ⟨⟨fid, st, pr, att⟩, mets, pol⟩ := fsm
  simp at hatt
  subst hatt
  refine ⟨?_, ?_, ?_, ?_⟩
  · intro h0
    simp [Batch.remove, h0]
  · intro h0
    simp [Batch.remove, h0]
  · intro h0 hc
    simp [Batch.remove_control, h0, hc]
  · intro h0
    simp [Batch.remove_control, h0]

theorem c6_remove_contract_witness :
    nfA.fsm.mailboxAttached = true ∧
    (((3 : Nat) = 0 → Batch.remove nfA { msgs := 3, slot := none } =
      some (none, { msgs := 3, slot := some { nfA.fsm with mailboxAttached := false } })) ∧
    ((3 : Nat) ≠ 0 →
      Batch.remove nfA { msgs := 3, slot := none } = some (some nfA, { msgs := 3, slot := none })) ∧
    (((0 : Nat) = 0 → (Batch.mk [] (some fsmA)).control = some fsmA →
      Batch.remove_control (Batch.mk [] (some fsmA)) { msgs := 0, slot := none } =
        some (Batch.mk [] none, { msgs := 0, slot := some fsmA })) ∧
    ((0 : Nat) ≠ 0 →
      Batch.remove_control (Batch.mk [] (some fsmA)) { msgs := 0, slot := none } =
        some (Batch.mk [] (some fsmA), { msgs := 0, slot := none })))) := by
  refine ⟨rfl, ?_⟩
  have h := c6_remove_contract nfA { msgs := 3, slot := none } (Batch.mk [] (some fsmA))
    { msgs := 0, slot := none } fsmA rfl
  exact ⟨h.1, h.2.1, h.2.2.1, h.2.2.2⟩

/-- C7: `Batch::push` returns `false` exactly for the `Empty` shutdown
sentinel (leaving the batch unchanged), appends a new slot and returns
`true` for a `Normal` item, and for a `Control` item stores it and
returns `true` only after asserting the control slot is empty — pushing
a second control FSM fails fast (modelled by `none`). -/
theorem c7_push_contract (b : Batch) (item : FsmTypes) (now : Nat) :
    (Batch.push b FsmTypes.Empty now = some (b, false)) ∧
    (∀ b1 r, Batch.push b item now = some (b1, r) →
      (r = false ↔ item = FsmTypes.Empty ∧ b1 = b)) ∧
    (∀ n ts, Batch.push b (FsmTypes.Normal n ts) now =
      some ({ b with normals := b.normals ++ [some (NormalFsm.new n now)] }, true)) ∧
    (∀ c ts, b.control = none →
      Batch.push b (FsmTypes.Control c ts) now =
        some ({ b with control := some c }, true)) ∧
    (∀ c ts x, b.control = some x → Batch.push b (FsmTypes.Control c ts) now = none) := by
  refine ⟨rfl, ?_, fun n ts => rfl, ?_, ?_⟩
  · intro b1 r h
    cases item with
    | Normal n ts =>
      simp [Batch.push] at h
      simp [h.1.symm, h.2.symm]
    | Control c ts =>
      simp [Batch.push] at h
      rcases h with ⟨hcn, hb1, hr⟩
      simp [hb1.symm, hr.symm]
    | Empty =>
      simp [Batch.push] at h
      simp [h.1.symm, h.2.symm]
  · intro c ts hc
    simp [Batch.push, hc]
  · intro c ts x hc
    simp [Batch.push, hc]

theorem c7_push_contract_witness :
    ∃ b1, Batch.push (Batch.mk [] none) (FsmTypes.Control fsmA 0) 0 = some (b1, true) :=
  ⟨_, (c7_push_contract (Batch.mk [] none) FsmTypes.Empty 0).2.2.2.1 fsmA 0 rfl⟩

/-- C9: `BatchSystem::shutdown` on a system whose name prefix is unset
(never spawned, or already shut down) returns immediately with no
broadcast, no joins and no state change; since the first shutdown takes
the prefix, shutdown composed with itself equals a single shutdown. -/
theorem c9_shutdown_idempotent (s : BatchSystemM) :
    (s.namePfx = none → BatchSystem.shutdown s = (s, [])) ∧
    BatchSystem.shutdown (BatchSystem.shutdown s).1 = ((BatchSystem.shutdown s).1, []) ∧
    (BatchSystem.shutdown (BatchSystem.shutdown s).1).1 = (BatchSystem.shutdown s).1 := by
  obtain ⟨pfx, ws⟩ := s
  cases pfx with
  | none => exact ⟨fun _ => rfl, rfl, rfl⟩
  | some v =>
    refine ⟨?_, rfl, rfl⟩
    intro h
    simp at h

theorem c9_shutdown_idempotent_witness :
    ((BatchSystemM.mk none [7]).namePfx = none →
      BatchSystem.shutdown (BatchSystemM.mk none [7]) = (BatchSystemM.mk none [7], [])) ∧
    BatchSystem.shutdown (BatchSystem.shutdown (BatchSystemM.mk none [7])).1 =
      ((BatchSystem.shutdown (BatchSystemM.mk none [7])).1, []) ∧
    (BatchSystem.shutdown (BatchSystem.shutdown (BatchSystemM.mk none [7])).1).1 =
      (BatchSystem.shutdown (BatchSystemM.mk none [7])).1 :=
  c9_shutdown_idempotent (BatchSystemM.mk none [7])

/-- C5: `Poller::fetch_fsm` follows the fixed decision order: occupied
control slot returns `true` untouched; else a successful non-blocking
receive is pushed and the push result returned; else on an empty batch
`pause()` is called and a blocking receive is pushed on receipt; else the
result is whether the batch is non-empty.  `false` is returned only when
the sentinel was pushed or the channel closed while the batch was
empty. -/
theorem c5_fetch_fsm_order (batch : Batch) (tryRes blockRes : Option FsmTypes) (now : Nat) :
    (batch.control.isSome = true →
      Poller.fetch_fsm batch tryRes blockRes now = FetchOut.ret true batch false) ∧
    (batch.control = none → ∀ fsm, tryRes = some fsm →
      ∃ b1 r, Batch.push batch fsm now = some (b1, r) ∧
        Poller.fetch_fsm batch tryRes blockRes now = FetchOut.ret r b1 false ∧
        (r = false ↔ fsm = FsmTypes.Empty)) ∧
    (batch.control = none → tryRes = none → Batch.is_empty batch = true →
      ∀ fsm, blockRes = some fsm →
        ∃ b1 r, Batch.push batch fsm now = some (b1, r) ∧
          Poller.fetch_fsm batch tryRes blockRes now = FetchOut.ret r b1 true) ∧
    (batch.control = none → tryRes = none → Batch.is_empty batch = true → blockRes = none →
      Poller.fetch_fsm batch tryRes blockRes now = FetchOut.ret false batch true) ∧
    (batch.control = none → tryRes = none → Batch.is_empty batch = false →
      Poller.fetch_fsm batch tryRes blockRes now = FetchOut.ret true batch false) ∧
    (∀ r b1 pzd, Poller.fetch_fsm batch tryRes blockRes now = FetchOut.ret r b1 pzd →
      r = false →
      tryRes = some FsmTypes.Empty ∨ blockRes = some FsmTypes.Empty ∨
        (blockRes = none ∧ Batch.is_empty batch = true)) := by
  have hpush : ∀ fsm, batch.control = none →
      ∃ b1 r, Batch.push batch fsm now = some (b1, r) ∧ (r = false ↔ fsm = FsmTypes.Empty) := by
    intro fsm hc
    cases fsm with
    | Normal n ts => exact ⟨_, true, rfl, by simp⟩
    | Control c ts =>
      refine ⟨{ batch with control := some c }, true, ?_, by simp⟩
      simp [Batch.push, hc]
    | Empty => exact ⟨batch, false, rfl, by simp⟩
  refine ⟨?_, ?_, ?_, ?_, ?_, ?_⟩
  · intro hc
    simp [Poller.fetch_fsm, hc]
  · intro hc fsm htry
    obtain ⟨b1, r, hp, hiff⟩ := hpush fsm hc
    refine ⟨b1, r, hp, ?_, hiff⟩
    simp [Poller.fetch_fsm, hc, htry, hp]
  · intro hc htry hemp fsm hblock
    obtain ⟨b1, r, hp, hiff⟩ := hpush fsm hc
    refine ⟨b1, r, hp, ?_⟩
    simp [Poller.fetch_fsm, hc, htry, hemp, hblock, hp]
  · intro hc htry hemp hblock
    simp [Poller.fetch_fsm, hc, htry, hemp, hblock]
  · intro hc htry hne
    simp [Poller.fetch_fsm, hc, htry, hne]
  · intro r b1 pzd hf hr
    subst hr
    cases hcv : batch.control with
    | some c =>
      simp [Poller.fetch_fsm, hcv] at hf
    | none =>
      cases htry : tryRes with
      | some fsm =>
        cases fsm with
        | Normal n ts => simp [Poller.fetch_fsm, Batch.push, hcv, htry] at hf
        | Control c ts => simp [Poller.fetch_fsm, Batch.push, hcv, htry] at hf
        | Empty => exact Or.inl rfl
      | none =>
        by_cases hemp : Batch.is_empty batch = true
        · cases hblock : blockRes with
          | some fsm =>
            cases fsm with
            | Normal n ts =>
              simp [Poller.fetch_fsm, Batch.push, hcv, htry, hemp, hblock] at hf
            | Control c ts =>
              simp [Poller.fetch_fsm, Batch.push, hcv, htry, hemp, hblock] at hf
            | Empty => exact Or.inr (Or.inl rfl)
          | none => exact Or.inr (Or.inr ⟨rfl, hemp⟩)
        · simp [Poller.fetch_fsm, hcv, htry, hemp] at hf

theorem c5_fetch_fsm_order_witness :
    (Batch.mk [] none).control = none ∧
    Poller.fetch_fsm (Batch.mk [] none) none none 0 =
      FetchOut.ret false (Batch.mk [] none) true :=
  ⟨rfl, (c5_fetch_fsm_order (Batch.mk [] none) none none 0).2.2.2.1 rfl rfl rfl rfl⟩

lemma remove_eq_of_empty (fsm : NormalFsm) (mb : MailboxState)
    (hatt : fsm.fsm.mailboxAttached = true) (h0 : mb.msgs = 0) :
    Batch.remove fsm mb =
      some (none, { mb with slot := some { fsm.fsm with mailboxAttached := false } }) := by
  obtain ⟨⟨fid, st, pr, att⟩, mets, pol⟩ := fsm
  simp at hatt
  subst hatt
  simp [Batch.remove, h0]

lemma remove_eq_of_nonempty (fsm : NormalFsm) (mb : MailboxState)
    (hatt : fsm.fsm.mailboxAttached = true) (h0 : mb.msgs ≠ 0) :
    Batch.remove fsm mb = some (some fsm, mb) := by
  obtain ⟨⟨fid, st, pr, att⟩, mets, pol⟩ := fsm
  simp at hatt
  subst hatt
  simp [Batch.remove, h0]

lemma release_isSome (fsm : NormalFsm) (el : Nat) (mb : MailboxState) (pushed : Nat)
    (stolen : Bool) (hatt : fsm.fsm.mailboxAttached = true) :
    ∃ res mb1, Batch.release fsm el mb pushed stolen = some (res, mb1) ∧
      (∀ g, res = some g → g = fsm) := by
  by_cases hlen : mb.msgs + pushed = el
  · exact ⟨none, _, release_eq_of_len fsm el mb pushed stolen hatt hlen,
      fun g h => by cases h⟩
  · cases stolen
    · exact ⟨some fsm, _, release_eq_of_retake fsm el mb pushed hatt hlen,
        fun g h => by cases h; rfl⟩
    · exact ⟨none, _, release_eq_of_stolen fsm el mb pushed hatt hlen,
        fun g h => by cases h⟩

lemma remove_isSome (fsm : NormalFsm) (mb : MailboxState)
    (hatt : fsm.fsm.mailboxAttached = true) :
    ∃ res mb1, Batch.remove fsm mb = some (res, mb1) ∧
      (∀ g, res = some g → g = fsm) := by
  by_cases h0 : mb.msgs = 0
  · exact ⟨none, _, remove_eq_of_empty fsm mb hatt h0, fun g h => by cases h⟩
  · exact ⟨some fsm, _, remove_eq_of_nonempty fsm mb hatt h0, fun g h => by cases h; rfl⟩

/-- C10: `Batch::schedule` on an empty slot is a no-op, and on an FSM
whose policy is unset it puts the FSM back unchanged and sends nothing —
an FSM classified KeepProcessing is never released, removed or
rescheduled by a stray schedule call. -/
theorem c10_schedule_noop (b : Batch) (index : Nat) (mb : MailboxState)
    (pushed : Nat) (stolen : Bool) :
    (b.normals[index]? = some none →
      Batch.schedule b index mb pushed stolen = some ⟨b, mb, none⟩) ∧
    (∀ f, b.normals[index]? = some (some f) → f.policy = none →
      Batch.schedule b index mb pushed stolen = some ⟨b, mb, none⟩) := by
  constructor
  · intro h
    simp [Batch.schedule, h]
  · intro f hslot hpol
    have h1 : ({ f with policy := none } : NormalFsm) = f := normalFsm_policy_none_eq f hpol
    simp only [Batch.schedule, hslot, hpol]
    simp only [List.set_set, h1, list_set_self b.normals index (some f) hslot]

theorem c10_schedule_noop_witness :
    ((Batch.mk [some nfA] none).normals[0]? = some (some nfA)) ∧ nfA.policy = none ∧
    Batch.schedule (Batch.mk [some nfA] none) 0 { msgs := 0, slot := none } 0 false =
      some ⟨Batch.mk [some nfA] none, { msgs := 0, slot := none }, none⟩ :=
  ⟨rfl, rfl,
    (c10_schedule_noop (Batch.mk [some nfA] none) 0 { msgs := 0, slot := none } 0 false).2
      nfA rfl rfl⟩

/-- C4: `Batch::schedule` disposes the FSM at slot `index` according to
its policy — `Release l` through `release`, `Remove` through `remove`,
`Schedule` by sending the FSM through the normal scheduler and emptying
the slot — and whenever the release or remove path hands the FSM back,
it is restored into the slot with its policy cleared. -/
theorem c4_schedule_dispatch (b : Batch) (index : Nat) (mb : MailboxState)
    (pushed : Nat) (stolen : Bool) (f : NormalFsm)
    (hslot : b.normals[index]? = some (some f)) (hatt : f.fsm.mailboxAttached = true) :
    (∀ l, f.policy = some (ReschedulePolicy.Release l) →
      ∃ res mb1, Batch.release f l mb pushed stolen = some (res, mb1) ∧
        Batch.schedule b index mb pushed stolen =
          some ⟨Batch.mk
            (b.normals.set index (res.map (fun g => { g with policy := none })))
            b.control, mb1, none⟩) ∧
    (f.policy = some ReschedulePolicy.Remove →
      ∃ res mb1, Batch.remove f mb = some (res, mb1) ∧
        Batch.schedule b index mb pushed stolen =
          some ⟨Batch.mk
            (b.normals.set index (res.map (fun g => { g with policy := none })))
            b.control, mb1, none⟩) ∧
    (f.policy = some ReschedulePolicy.Schedule →
      Batch.schedule b index mb pushed stolen =
        some ⟨Batch.mk (b.normals.set index none) b.control, mb, some f.fsm⟩) := by
  refine ⟨?_, ?_, ?_⟩
  · intro l hpol
    obtain ⟨res, mb1, hrel, _⟩ := release_isSome f l mb pushed stolen hatt
    refine ⟨res, mb1, hrel, ?_⟩
    simp only [Batch.schedule, hslot, hpol, hrel, Option.map_some]
    cases res with
    | none => simp
    | some g => simp [List.set_set]
  · intro hpol
    obtain ⟨res, mb1, hrem, _⟩ := remove_isSome f mb hatt
    refine ⟨res, mb1, hrem, ?_⟩
    simp only [Batch.schedule, hslot, hpol, hrem, Option.map_some]
    cases res with
    | none => simp
    | some g => simp [List.set_set]
  · intro hpol
    simp [Batch.schedule, hslot, hpol]


theorem c4_schedule_dispatch_witness :
    ((Batch.mk [some nfR] none).normals[0]? = some (some nfR)) ∧
    nfR.fsm.mailboxAttached = true ∧
    ((∀ l, nfR.policy = some (ReschedulePolicy.Release l) →
      ∃ res mb1, Batch.release nfR l { msgs := 0, slot := none } 0 false = some (res, mb1) ∧
        Batch.schedule (Batch.mk [some nfR] none) 0 { msgs := 0, slot := none } 0 false =
          some ⟨Batch.mk
            (List.set [some nfR] 0 (res.map (fun g => { g with policy := none })))
            none, mb1, none⟩) ∧
    (nfR.policy = some ReschedulePolicy.Remove →
      ∃ res mb1, Batch.remove nfR { msgs := 0, slot := none } = some (res, mb1) ∧
        Batch.schedule (Batch.mk [some nfR] none) 0 { msgs := 0, slot := none } 0 false =
          some ⟨Batch.mk
            (List.set [some nfR] 0 (res.map (fun g => { g with policy := none })))
            none, mb1, none⟩) ∧
    (nfR.policy = some ReschedulePolicy.Schedule →
      Batch.schedule (Batch.mk [some nfR] none) 0 { msgs := 0, slot := none } 0 false =
        some ⟨Batch.mk (List.set [some nfR] 0 none) none, { msgs := 0, slot := none },
          some nfR.fsm⟩)) :=
  ⟨rfl, rfl,
    c4_schedule_dispatch (Batch.mk [some nfR] none) 0 { msgs := 0, slot := none } 0 false
      nfR rfl rfl⟩

/-- C3: fixed classification precedence of the main per-round loop: a
stopped FSM gets `Remove` regardless of the handler result; else a
priority mismatch gets `Schedule`; else a hot FSM selected by the
every-second-hot rule gets `Schedule` and the handler's `StopAt` is not
applied; else `StopAt{progress, skip_end}` gets `Release progress` with
the index recorded and `skip_end` propagated; else (`KeepProcessing`) the
policy field is left as it was and the FSM is not recorded for
rescheduling. -/
theorem c3_classify_precedence (H : Handler) (dur now hc : Nat) (p : NormalFsm)
    (f1 : Fsm) (res : HandleResult) (hrun : H.run p.fsm = (f1, res)) :
    (f1.stopped = true →
      classifyOne H dur now hc p =
        ⟨{ p with fsm := f1, policy := some ReschedulePolicy.Remove }, hc, true, false⟩) ∧
    (f1.stopped = false → f1.priority ≠ H.priority →
      classifyOne H dur now hc p =
        ⟨{ p with fsm := f1, policy := some ReschedulePolicy.Schedule }, hc, true, false⟩) ∧
    (f1.stopped = false → f1.priority = H.priority → dur ≤ now - p.metrics.timer →
      (hc + 1) % 2 = 0 →
      classifyOne H dur now hc p =
        ⟨{ p with fsm := f1, policy := some ReschedulePolicy.Schedule }, hc + 1,
          true, false⟩) ∧
    (∀ progress sk, f1.stopped = false → f1.priority = H.priority →
      res = HandleResult.StopAt progress sk →
      ¬(dur ≤ now - p.metrics.timer ∧
        (if dur ≤ now - p.metrics.timer then hc + 1 else hc) % 2 = 0) →
      classifyOne H dur now hc p =
        ⟨{ p with fsm := f1, policy := some (ReschedulePolicy.Release progress) },
          if dur ≤ now - p.metrics.timer then hc + 1 else hc, true, sk⟩) ∧
    (f1.stopped = false → f1.priority = H.priority → res = HandleResult.KeepProcessing →
      ¬(dur ≤ now - p.metrics.timer ∧
        (if dur ≤ now - p.metrics.timer then hc + 1 else hc) % 2 = 0) →
      classifyOne H dur now hc p =
        ⟨{ p with fsm := f1 }, if dur ≤ now - p.metrics.timer then hc + 1 else hc,
          false, false⟩) := by
  refine ⟨?_, ?_, ?_, ?_, ?_⟩
  · intro hst
    simp [classifyOne, hrun, hst]
  · intro hst hpr
    simp [classifyOne, hrun, hst, hpr]
  · intro hst hpr hhot heven
    simp [classifyOne, hrun, hst, hpr, hhot, heven]
  · intro progress sk hst hpr hres hng
    by_cases hhot : dur ≤ now - p.metrics.timer
    · have hodd : (hc + 1) % 2 ≠ 0 := fun h => hng ⟨hhot, by simp [hhot, h]⟩
      simp [classifyOne, hrun, hst, hpr, hhot, hodd, hres]
    · simp [classifyOne, hrun, hst, hpr, hhot, hres]
  · intro hst hpr hres hng
    by_cases hhot : dur ≤ now - p.metrics.timer
    · have hodd : (hc + 1) % 2 ≠ 0 := fun h => hng ⟨hhot, by simp [hhot, h]⟩
      simp [classifyOne, hrun, hst, hpr, hhot, hodd, hres]
    · simp [classifyOne, hrun, hst, hpr, hhot, hres]


theorem c3_classify_precedence_witness :
    hKeep.run nfA.fsm = (fsmA, HandleResult.KeepProcessing) ∧
    ((fsmA.stopped = true →
      classifyOne hKeep 1 0 0 nfA =
        ⟨{ nfA with fsm := fsmA, policy := some ReschedulePolicy.Remove }, 0,
          true, false⟩) ∧
    (fsmA.stopped = false → fsmA.priority ≠ hKeep.priority →
      classifyOne hKeep 1 0 0 nfA =
        ⟨{ nfA with fsm := fsmA, policy := some ReschedulePolicy.Schedule }, 0,
          true, false⟩) ∧
    (fsmA.stopped = false → fsmA.priority = hKeep.priority → 1 ≤ 0 - nfA.metrics.timer →
      (0 + 1) % 2 = 0 →
      classifyOne hKeep 1 0 0 nfA =
        ⟨{ nfA with fsm := fsmA, policy := some ReschedulePolicy.Schedule }, 0 + 1,
          true, false⟩) ∧
    (∀ progress sk, fsmA.stopped = false → fsmA.priority = hKeep.priority →
      HandleResult.KeepProcessing = HandleResult.StopAt progress sk →
      ¬(1 ≤ 0 - nfA.metrics.timer ∧
        (if 1 ≤ 0 - nfA.metrics.timer then 0 + 1 else 0) % 2 = 0) →
      classifyOne hKeep 1 0 0 nfA =
        ⟨{ nfA with fsm := fsmA, policy := some (ReschedulePolicy.Release progress) },
          if 1 ≤ 0 - nfA.metrics.timer then 0 + 1 else 0, true, sk⟩) ∧
    (fsmA.stopped = false → fsmA.priority = hKeep.priority →
      HandleResult.KeepProcessing = HandleResult.KeepProcessing →
      ¬(1 ≤ 0 - nfA.metrics.timer ∧
        (if 1 ≤ 0 - nfA.metrics.timer then 0 + 1 else 0) % 2 = 0) →
      classifyOne hKeep 1 0 0 nfA =
        ⟨{ nfA with fsm := fsmA }, if 1 ≤ 0 - nfA.metrics.timer then 0 + 1 else 0,
          false, false⟩)) :=
  ⟨rfl, c3_classify_precedence hKeep 1 0 0 nfA fsmA HandleResult.KeepProcessing rfl⟩





lemma classifyOne_cold (H : Handler) (dur now hc : Nat) (p : NormalFsm)
    (hcold : isHot dur now p = false) :
    (classifyOne H dur now hc p).hotCount = hc := by
  rcases hr : H.run p.fsm with ⟨f1, res⟩
  have hcold2 : ¬ (dur ≤ now - p.metrics.timer) := by
    simpa [isHot] using hcold
  by_cases hst : f1.stopped
  · simp [classifyOne, hr, hst]
  · by_cases hpr : f1.priority = H.priority
    · cases res <;> simp [classifyOne, hr, hst, hpr, hcold2]
    · simp [classifyOne, hr, hst, hpr]

lemma classifyOne_hot (H : Handler) (dur now hc : Nat) (p : NormalFsm)
    (hhot : isHot dur now p = true) (hcl : cleanFor H p) :
    (classifyOne H dur now hc p).hotCount = hc + 1 ∧
    ((classifyOne H dur now hc p).p.policy = some ReschedulePolicy.Schedule ↔
      (hc + 1) % 2 = 0) := by
  rcases hr : H.run p.fsm with ⟨f1, res⟩
  obtain ⟨hst, hpr, hpol⟩ := hcl
  rw [hr] at hst hpr
  simp only [Prod.fst] at hst hpr
  have hhot2 : dur ≤ now - p.metrics.timer := by simpa [isHot] using hhot
  by_cases he : (hc + 1) % 2 = 0
  · simp [classifyOne, hr, hst, hpr, hhot2, he]
  · cases res <;> simp [classifyOne, hr, hst, hpr, hhot2, he, hpol]

lemma classifyLoop_hot_spec (H : Handler) (dur now : Nat) :
    ∀ (ns : List NormalFsm) (i0 hc : Nat),
    (∀ p ∈ ns, isHot dur now p = true → cleanFor H p) →
    ∃ os recs skips,
      classifyLoop H dur now (ns.map some) i0 hc =
        some (os, hc + hotCnt dur now ns, recs, skips) ∧
      os.length = ns.length ∧
      (ns.zip os).countP (fun pr => isHot dur now pr.1 && slotSched pr.2) =
        (hc + hotCnt dur now ns) / 2 - hc / 2 ∧
      (∀ i, i < ns.length → ∃ pin q, ns[i]? = some pin ∧ os[i]? = some (some q) ∧
        (isHot dur now pin = true →
          (q.policy = some ReschedulePolicy.Schedule ↔
            (hc + hotCnt dur now (ns.take (i + 1))) % 2 = 0)))
  | [], i0, hc, h =>
    ⟨[], [], [], by simp [classifyLoop, hotCnt], by simp, by simp [hotCnt], by simp⟩
  | p :: ns, i0, hc, h => by
    have hrest : ∀ q ∈ ns, isHot dur now q = true → cleanFor H q :=
      fun q hq => h q (List.mem_cons_of_mem p hq)
    by_cases hhot : isHot dur now p = true
    · have hcl := h p (List.mem_cons_self p ns) hhot
      obtain ⟨hcount, hiff⟩ := classifyOne_hot H dur now hc p hhot hcl
      obtain ⟨os, recs, skips, heq, hlen, hcnt, hpos⟩ :=
        classifyLoop_hot_spec H dur now ns (i0 + 1) (hc + 1) hrest
      have hco : hotCnt dur now (p :: ns) = hotCnt dur now ns + 1 := by
        simp [hotCnt, List.countP_cons, hhot]
      have htot : hc + hotCnt dur now (p :: ns) = (hc + 1) + hotCnt dur now ns := by
        omega
      refine ⟨some (classifyOne H dur now hc p).p :: os,
        (if (classifyOne H dur now hc p).recorded then i0 :: recs else recs),
        (if (classifyOne H dur now hc p).skipEnd then i0 :: skips else skips),
        ?_, ?_, ?_, ?_⟩
      · rw [htot]
        simp only [List.map_cons, classifyLoop, hcount, heq]
      · simpa using hlen
      · have hind : (isHot dur now p && slotSched (some (classifyOne H dur now hc p).p)) =
            decide ((hc + 1) % 2 = 0) := by
          rw [hhot]
          by_cases he : (hc + 1) % 2 = 0
          · simp [slotSched, hiff.mpr he, he]
          · have hnp : ¬ (classifyOne H dur now hc p).p.policy =
                some ReschedulePolicy.Schedule := fun hx => he (hiff.mp hx)
            simp [slotSched, he, hnp]
        rw [htot]
        simp only [List.zip_cons_cons, List.countP_cons, hcnt, hind]
        by_cases he : (hc + 1) % 2 = 0
        · simp only [he]
          simp only [decide_eq_true_eq, if_pos]
          omega
        · simp only [he]
          rw [if_neg (by simp [he])]
          omega
      · intro i hi
        cases i with
        | zero =>
          refine ⟨p, (classifyOne H dur now hc p).p, by simp, by simp, fun _ => ?_⟩
          have h1 : hc + hotCnt dur now ((p :: ns).take 1) = hc + 1 := by
            simp [hotCnt, List.countP_cons, hhot]
          rw [h1]
          exact hiff
        | succ j =>
          have hj : j < ns.length := by simpa using Nat.lt_of_succ_lt_succ hi
          obtain ⟨pin, q, h1, h2, h3⟩ := hpos j hj
          refine ⟨pin, q, by simpa using h1, by simpa using h2, fun hh => ?_⟩
          have h5 : hotCnt dur now ((p :: ns).take (j + 2)) =
              hotCnt dur now (ns.take (j + 1)) + 1 := by
            simp [hotCnt, List.countP_cons, hhot, List.take_succ_cons]
          have h4 : hc + hotCnt dur now ((p :: ns).take (j + 2)) =
              (hc + 1) + hotCnt dur now (ns.take (j + 1)) := by
            omega
          rw [h4]
          exact h3 hh
    · have hcold : isHot dur now p = false := by simpa using hhot
      have hcount := classifyOne_cold H dur now hc p hcold
      obtain ⟨os, recs, skips, heq, hlen, hcnt, hpos⟩ :=
        classifyLoop_hot_spec H dur now ns (i0 + 1) hc hrest
      have htot : hc + hotCnt dur now (p :: ns) = hc + hotCnt dur now ns := by
        simp [hotCnt, List.countP_cons, hcold]
      refine ⟨some (classifyOne H dur now hc p).p :: os,
        (if (classifyOne H dur now hc p).recorded then i0 :: recs else recs),
        (if (classifyOne H dur now hc p).skipEnd then i0 :: skips else skips),
        ?_, ?_, ?_, ?_⟩
      · rw [htot]
        simp only [List.map_cons, classifyLoop, hcount, heq]
      · simpa using hlen
      · rw [htot]
        have hind : (isHot dur now p && slotSched (some (classifyOne H dur now hc p).p)) =
            false := by
          simp [hcold]
        simp only [List.zip_cons_cons, List.countP_cons, hcnt, hind]
        simp
      · intro i hi
        cases i with
        | zero =>
          exact ⟨p, (classifyOne H dur now hc p).p, by simp, by simp,
            fun hh => absurd hh (by simp [hcold])⟩
        | succ j =>
          have hj : j < ns.length := by simpa using Nat.lt_of_succ_lt_succ hi
          obtain ⟨pin, q, h1, h2, h3⟩ := hpos j hj
          refine ⟨pin, q, by simpa using h1, by simpa using h2, fun hh => ?_⟩
          have h4 : hc + hotCnt dur now ((p :: ns).take (j + 2)) =
              hc + hotCnt dur now (ns.take (j + 1)) := by
            simp [List.take_succ_cons, hotCnt, List.countP_cons, hcold]
          rw [h4]
          exact h3 hh

/-- C2: in one round of the main classification loop starting with
`hot_fsm_count = 0`, if every hot FSM (elapsed time at least
`reschedule_duration`) is neither stopped nor priority-mismatched after
its handler run, then exactly `⌊K/2⌋` of the `K` hot FSMs get policy
`Schedule` — precisely those hot FSMs whose running hot counter is even
after being incremented, i.e. the 2nd, 4th, 6th, ... hot FSM in batch
order. -/
theorem c2_hot_reschedule (H : Handler) (dur now : Nat) (ns : List NormalFsm)
    (hns : ∀ p ∈ ns, isHot dur now p = true → cleanFor H p) :
    ∃ os recs skips,
      classifyLoop H dur now (ns.map some) 0 0 =
        some (os, hotCnt dur now ns, recs, skips) ∧
      (ns.zip os).countP (fun pr => isHot dur now pr.1 && slotSched pr.2) =
        hotCnt dur now ns / 2 ∧
      (∀ i, i < ns.length → ∃ pin q, ns[i]? = some pin ∧ os[i]? = some (some q) ∧
        (isHot dur now pin = true →
          (q.policy = some ReschedulePolicy.Schedule ↔
            hotCnt dur now (ns.take (i + 1)) % 2 = 0))) := by
  obtain ⟨os, recs, skips, heq, hlen, hcnt, hpos⟩ :=
    classifyLoop_hot_spec H dur now ns 0 0 hns
  refine ⟨os, recs, skips, by simpa using heq, by simpa using hcnt, ?_⟩
  intro i hi
  obtain ⟨pin, q, h1, h2, h3⟩ := hpos i hi
  refine ⟨pin, q, h1, h2, fun hh => ?_⟩
  have h4 := h3 hh
  simpa using h4

lemma cleanFor_nfA_pair : ∀ p ∈ [nfA, nfA], isHot 0 0 p = true → cleanFor hKeep p := by
  intro p hp hh
  have hcl : cleanFor hKeep nfA := ⟨rfl, rfl, rfl⟩
  rcases List.mem_cons.mp hp with h | h
  · subst h
    exact hcl
  · rcases List.mem_cons.mp h with h2 | h2
    · subst h2
      exact hcl
    · cases h2

theorem c2_hot_reschedule_witness :
    (∀ p ∈ [nfA, nfA], isHot 0 0 p = true → cleanFor hKeep p) ∧
    (∃ os recs skips,
      classifyLoop hKeep 0 0 (List.map some [nfA, nfA]) 0 0 =
        some (os, hotCnt 0 0 [nfA, nfA], recs, skips) ∧
      (List.zip [nfA, nfA] os).countP (fun pr => isHot 0 0 pr.1 && slotSched pr.2) =
        hotCnt 0 0 [nfA, nfA] / 2 ∧
      (∀ i, i < (([nfA, nfA] : List NormalFsm)).length → ∃ pin q,
        (([nfA, nfA] : List NormalFsm))[i]? = some pin ∧
        os[i]? = some (some q) ∧
        (isHot 0 0 pin = true →
          (q.policy = some ReschedulePolicy.Schedule ↔
            hotCnt 0 0 (List.take (i + 1) [nfA, nfA]) % 2 = 0)))) :=
  ⟨cleanFor_nfA_pair, c2_hot_reschedule hKeep 0 0 [nfA, nfA] cleanFor_nfA_pair⟩


lemma listSwapRemove_length {α : Type} (l : List α) (i : Nat) (hne : l ≠ []) :
    (listSwapRemove l i).length = l.length - 1 := by
  have hg : l.getLast? = some (l.getLast hne) := List.getLast?_eq_getLast l hne
  rw [listSwapRemove.eq_def, hg]
  simp

lemma listSwapRemove_getElem_lt {α : Type} (l : List α) (i j : Nat)
    (hi : i < l.length) (hj : j < i) :
    (listSwapRemove l i)[j]? = l[j]? := by
  have hne : l ≠ [] := List.ne_nil_of_length_pos (by omega)
  have hg : l.getLast? = some (l.getLast hne) := List.getLast?_eq_getLast l hne
  rw [listSwapRemove.eq_def, hg]
  show ((l.set i (l.getLast hne)).dropLast)[j]? = l[j]?
  rw [List.dropLast_eq_take, List.length_set, List.getElem?_take]
  rw [if_pos (by omega), List.getElem?_set_ne (by omega)]

lemma listSwapRemove_subset {α : Type} (l : List α) (i : Nat) :
    ∀ x ∈ listSwapRemove l i, x ∈ l := by
  intro x hx
  rw [listSwapRemove.eq_def] at hx
  cases hg : l.getLast? with
  | none =>
    rw [hg] at hx
    exact hx
  | some last =>
    rw [hg] at hx
    have hx2 : x ∈ l.set i last := (List.dropLast_sublist (l.set i last)).subset hx
    rcases List.mem_or_eq_of_mem_set hx2 with h | h
    · exact h
    · subst h
      have hne : l ≠ [] := by
        intro he
        subst he
        simp at hg
      have hg2 : l.getLast? = some (l.getLast hne) := List.getLast?_eq_getLast l hne
      rw [hg] at hg2
      cases hg2
      exact List.getLast_mem hne

lemma swap_reclaim_occupied (b : Batch) (i : Nat) (f : NormalFsm)
    (h : b.normals[i]? = some (some f)) : Batch.swap_reclaim b i = some b := by
  simp [Batch.swap_reclaim, h]

lemma swap_reclaim_empty (b : Batch) (i : Nat) (h : b.normals[i]? = some none) :
    Batch.swap_reclaim b i =
      some (Batch.mk (listSwapRemove b.normals i) b.control) := by
  simp [Batch.swap_reclaim, h]

lemma set_batch_props (b : Batch) (i : Nat) (v : Option NormalFsm)
    (hi : i < b.normals.length)
    (hatt : ∀ o ∈ b.normals, slotAttached o = true)
    (hv : slotAttached v = true) :
    (Batch.mk (b.normals.set i v) b.control).normals.length = b.normals.length ∧
    (∀ j, j ≠ i → (Batch.mk (b.normals.set i v) b.control).normals[j]? = b.normals[j]?) ∧
    (∀ o ∈ (Batch.mk (b.normals.set i v) b.control).normals, slotAttached o = true) := by
  refine ⟨by simp, ?_, ?_⟩
  · intro j hj
    exact List.getElem?_set_ne (fun he => hj he.symm)
  · intro o ho
    rcases List.mem_or_eq_of_mem_set ho with h | h
    · exact hatt o h
    · subst h
      exact hv

lemma schedule_frame (b : Batch) (i : Nat) (mb : MailboxState) (pushed : Nat)
    (stolen : Bool) (hi : i < b.normals.length)
    (hatt : ∀ o ∈ b.normals, slotAttached o = true) :
    ∃ out, Batch.schedule b i mb pushed stolen = some out ∧
      out.batch.normals.length = b.normals.length ∧
      (∀ j, j ≠ i → out.batch.normals[j]? = b.normals[j]?) ∧
      (∀ o ∈ out.batch.normals, slotAttached o = true) := by
  have ho : b.normals[i]? = some (b.normals[i]) := List.getElem?_eq_getElem hi
  cases hov : b.normals[i] with
  | none =>
    rw [hov] at ho
    refine ⟨⟨b, mb, none⟩, ?_, rfl, fun j _ => rfl, hatt⟩
    simp [Batch.schedule, ho]
  | some f =>
    rw [hov] at ho
    have hf : f.fsm.mailboxAttached = true :=
      hatt (some f) (List.getElem?_mem ho)
    cases hpol : f.policy with
    | none =>
      obtain ⟨hlen, hframe, hatt2⟩ :=
        set_batch_props b i (some { f with policy := none }) hi hatt
          (by simpa [slotAttached] using hf)
      refine ⟨⟨Batch.mk (b.normals.set i (some { f with policy := none })) b.control,
        mb, none⟩, ?_, hlen, hframe, hatt2⟩
      simp only [Batch.schedule, ho, hpol]
      simp [List.set_set]
    | some pol =>
      cases pol with
      | Release l =>
        obtain ⟨res, mb1, hrel, hres⟩ := release_isSome f l mb pushed stolen hf
        cases res with
        | none =>
          obtain ⟨hlen, hframe, hatt2⟩ := set_batch_props b i none hi hatt rfl
          refine ⟨⟨Batch.mk (b.normals.set i none) b.control, mb1, none⟩, ?_,
            hlen, hframe, hatt2⟩
          simp [Batch.schedule, ho, hpol, hrel]
        | some g =>
          have hg : g = f := hres g rfl
          subst hg
          obtain ⟨hlen, hframe, hatt2⟩ :=
            set_batch_props b i (some { g with policy := none }) hi hatt
              (by simpa [slotAttached] using hf)
          refine ⟨⟨Batch.mk (b.normals.set i (some { g with policy := none })) b.control,
            mb1, none⟩, ?_, hlen, hframe, hatt2⟩
          simp only [Batch.schedule, ho, hpol, hrel, Option.map_some]
          simp [List.set_set]
      | Remove =>
        obtain ⟨res, mb1, hrem, hres⟩ := remove_isSome f mb hf
        cases res with
        | none =>
          obtain ⟨hlen, hframe, hatt2⟩ := set_batch_props b i none hi hatt rfl
          refine ⟨⟨Batch.mk (b.normals.set i none) b.control, mb1, none⟩, ?_,
            hlen, hframe, hatt2⟩
          simp [Batch.schedule, ho, hpol, hrem]
        | some g =>
          have hg : g = f := hres g rfl
          subst hg
          obtain ⟨hlen, hframe, hatt2⟩ :=
            set_batch_props b i (some { g with policy := none }) hi hatt
              (by simpa [slotAttached] using hf)
          refine ⟨⟨Batch.mk (b.normals.set i (some { g with policy := none })) b.control,
            mb1, none⟩, ?_, hlen, hframe, hatt2⟩
          simp only [Batch.schedule, ho, hpol, hrem, Option.map_some]
          simp [List.set_set]
      | Schedule =>
        obtain ⟨hlen, hframe, hatt2⟩ := set_batch_props b i none hi hatt rfl
        refine ⟨⟨Batch.mk (b.normals.set i none) b.control, mb, some f.fsm⟩, ?_,
          hlen, hframe, hatt2⟩
        simp [Batch.schedule, ho, hpol]

lemma reschedSafe_of (orig : Batch) (envAt : EnvAt) :
    ∀ (idxs : List Nat) (b : Batch),
    List.Pairwise (fun a c => c < a) idxs →
    (∀ x ∈ idxs, x < b.normals.length ∧ b.normals[x]? = orig.normals[x]?) →
    (∀ o ∈ b.normals, slotAttached o = true) →
    reschedSafe orig envAt b idxs
  | [], b, _, _, _ => trivial
  | i :: rest, b, hpw, hbound, hatt => by
    obtain ⟨hi, hsame⟩ := hbound i (List.mem_cons_self i rest)
    obtain ⟨out, hsched, hlen, hframe, hatt2⟩ :=
      schedule_frame b i (envAt i).1 (envAt i).2.1 (envAt i).2.2 hi hatt
    have hi2 : i < out.batch.normals.length := by omega
    have ho2 : out.batch.normals[i]? = some (out.batch.normals[i]) :=
      List.getElem?_eq_getElem hi2
    have hstep : ∃ b1, Batch.swap_reclaim out.batch i = some b1 ∧
        i ≤ b1.normals.length ∧
        (∀ j, j < i → b1.normals[j]? = out.batch.normals[j]?) ∧
        (∀ o2 ∈ b1.normals, slotAttached o2 = true) := by
      cases hov : out.batch.normals[i] with
      | some f =>
        rw [hov] at ho2
        exact ⟨out.batch, swap_reclaim_occupied out.batch i f ho2, by omega,
          fun j _ => rfl, hatt2⟩
      | none =>
        rw [hov] at ho2
        have hne : out.batch.normals ≠ [] := List.ne_nil_of_length_pos (by omega)
        have hlen2 := listSwapRemove_length out.batch.normals i hne
        refine ⟨Batch.mk (listSwapRemove out.batch.normals i) out.batch.control,
          swap_reclaim_empty out.batch i ho2, by simpa [hlen2] using by omega, ?_, ?_⟩
        · intro j hj
          exact listSwapRemove_getElem_lt out.batch.normals i j hi2 hj
        · intro o2 ho2m
          exact hatt2 o2 (listSwapRemove_subset out.batch.normals i o2 ho2m)
    obtain ⟨b1, hrecl, hile, hframe1, hatt1⟩ := hstep
    have hlt : ∀ x ∈ rest, x < i := (List.pairwise_cons.mp hpw).1
    have hpw1 : List.Pairwise (fun a c => c < a) rest := (List.pairwise_cons.mp hpw).2
    have hbound1 : ∀ x ∈ rest, x < b1.normals.length ∧
        b1.normals[x]? = orig.normals[x]? := by
      intro x hx
      have hxi := hlt x hx
      refine ⟨by omega, ?_⟩
      rw [hframe1 x hxi, hframe x (by omega),
        (hbound x (List.mem_cons_of_mem i hx)).2]
    exact ⟨hi, hsame, out, b1, hsched, hrecl, reschedSafe_of orig envAt rest b1 hpw1 hbound1 hatt1⟩

/-- C8: `Batch::swap_reclaim` pops slot `i` (swapping it with the tail)
only when the slot is empty — an occupied slot is left untouched — and it
never changes a slot at an index smaller than `i`; consequently a
reschedule pass over recorded indices in strictly descending order keeps
every index in bounds and pointing at the slot content the pass started
from, with no panic in `schedule` or `swap_reclaim`. -/
theorem c8_swap_reclaim_order (b : Batch) (i : Nat) (envAt : EnvAt) (idxs : List Nat) :
    (∀ f, b.normals[i]? = some (some f) → Batch.swap_reclaim b i = some b) ∧
    (b.normals[i]? = some none →
      ∃ b1, Batch.swap_reclaim b i = some b1 ∧
        b1.normals.length + 1 = b.normals.length ∧
        (∀ j, j < i → b1.normals[j]? = b.normals[j]?)) ∧
    (List.Pairwise (fun a c => c < a) idxs →
      (∀ x ∈ idxs, x < b.normals.length) →
      (∀ o ∈ b.normals, slotAttached o = true) →
      reschedSafe b envAt b idxs) := by
  refine ⟨fun f h => swap_reclaim_occupied b i f h, ?_, ?_⟩
  · intro h
    have hi : i < b.normals.length := by
      by_contra hge
      rw [List.getElem?_eq_none (by omega)] at h
      cases h
    have hne : b.normals ≠ [] := List.ne_nil_of_length_pos (by omega)
    refine ⟨Batch.mk (listSwapRemove b.normals i) b.control,
      swap_reclaim_empty b i h, ?_, ?_⟩
    · have := listSwapRemove_length b.normals i hne
      simp only []
      omega
    · intro j hj
      exact listSwapRemove_getElem_lt b.normals i j hi hj
  · intro hpw hbound hatt
    exact reschedSafe_of b envAt idxs b hpw (fun x hx => ⟨hbound x hx, rfl⟩) hatt

lemma attached_nfR_pair :
    ∀ o ∈ (Batch.mk [some nfR, some nfA] none).normals, slotAttached o = true := by
  intro o ho
  rcases List.mem_cons.mp ho with h | h
  · subst h
    rfl
  · rcases List.mem_cons.mp h with h2 | h2
    · subst h2
      rfl
    · cases h2

theorem c8_swap_reclaim_order_witness :
    List.Pairwise (fun a c => c < a) [1, 0] ∧
    (∀ x ∈ [1, 0], x < (Batch.mk [some nfR, some nfA] none).normals.length) ∧
    reschedSafe (Batch.mk [some nfR, some nfA] none)
      (fun _ => ({ msgs := 0, slot := none }, 0, false))
      (Batch.mk [some nfR, some nfA] none) [1, 0] :=
  ⟨by decide, by decide,
    (c8_swap_reclaim_order (Batch.mk [some nfR, some nfA] none) 0
      (fun _ => ({ msgs := 0, slot := none }, 0, false)) [1, 0]).2.2
      (by decide) (by decide) attached_nfR_pair⟩
